import Mathlib

/-
Verification of the symbol demangler (Source/Core/Common/Demangler.cpp).

The C++ code is shallowly embedded below:
* `SS` models `Demangler::StringStream` (an immutable character list plus a
  read position).  An extra ghost boolean `oob` records whether a
  `std::vector` element was ever read out of bounds inside
  `DemangleComponents`; it influences no output.
* `ComponentInfo` / `CompType` model the component vector built by
  `DemangleType`.
* The mutually recursive parsing functions and their inner loops
  (`DemangleType`, `DemangleTemplate` and its do/while loop, the
  length-prefixed copy loop, the component do/while loop, the `Q` and `F`
  sub-loops) are embedded as one fuel-indexed step function `run` over a
  call tag, so that the kernel can evaluate it; `none` means the fuel ran
  out.  Named wrappers (`demangleType`, ...) recover the source functions.
* Loops that always terminate because an index strictly grows towards a
  bound (`readDigits`, `scanFrom`, the renderer loop) are embedded with an
  explicit gas argument that the wrapper sets high enough that it cannot
  run out before the loop condition fails.
* Strings are modelled as `List Char`; the C++ `'\0'` sentinel is `nul`.
-/

namespace Demangler

/-- The sentinel byte returned by `StringStream` reads past the end. -/
def nul : Char := Char.ofNat 0

/-- `Demangler::StringStream`: the mangled text plus the read position.
`oob` is a ghost flag recording an out-of-bounds `components[start]` read
in `DemangleComponents`; the C++ has no such field (the read is undefined
behaviour there). -/
structure SS where
  data : List Char
  pos : Nat
  oob : Bool
deriving DecidableEq, Repr

/-- `StringStream::Length`. -/
def SS.len (st : SS) : Nat := st.data.length

/-- `StringStream::Read`: consume and return the current byte, or the
sentinel (leaving the position unchanged) at or past the end. -/
def read (st : SS) : Char × SS :=
  if h : st.pos < st.len then
    (st.data.get ⟨st.pos, h⟩, { st with pos := st.pos + 1 })
  else (nul, st)

/-- `StringStream::Peek`. -/
def peek (st : SS) : Char :=
  if h : st.pos < st.len then st.data.get ⟨st.pos, h⟩ else nul

/-- Character at an absolute non-negative index, sentinel past the end
(`Data[index]` under the `index >= Length()` guard, for `index >= 0`). -/
def charAt (st : SS) (i : Nat) : Char := st.data.getD i nul

/-- `StringStream::operator[]` with its exact `int` parameter type:
`if (index >= Length()) return '\0'; return Data[index];`.
A negative index reaches `Data[index]`, which is undefined behaviour on
`std::string`; that is modelled as `none`. -/
def opAt (st : SS) (i : Int) : Option Char :=
  if (st.len : Int) ≤ i then some nul
  else if 0 ≤ i then some (charAt st i.toNat) else none

/-- `Demangler::ComponentType`. -/
inductive CompType where
  | const | pointer | reference | unsigned | ellipsis
  | void | bool | char | wchar | short | int | long | longlong
  | float | double | type | func | array
deriving DecidableEq, Inhabited, Repr

/-- `Demangler::ComponentInfo`. -/
structure ComponentInfo where
  type : CompType
  length : Int
  name : List Char
  prms : List Char
deriving DecidableEq, Inhabited, Repr

/-- `ComponentInfo(ComponentType t)`. -/
def mkMod (t : CompType) : ComponentInfo := ⟨t, 0, [], []⟩

/-- `ComponentInfo(int array_len)`. -/
def mkArr (n : Int) : ComponentInfo := ⟨CompType.array, n, [], []⟩

/-- `ComponentInfo(const std::string& type_name)`. -/
def mkNamed (nm : List Char) : ComponentInfo := ⟨CompType.type, 0, nm, []⟩

/-- `ComponentInfo(const std::string& params, const std::string& ret)`. -/
def mkFunc (params ret : List Char) : ComponentInfo :=
  ⟨CompType.func, 0, ret, params⟩

/-- `std::to_string` on an `int`. -/
def intChars (i : Int) : List Char := (toString i).data

/-- The fixed token a non-composite component renders to. -/
def token (c : ComponentInfo) : List Char :=
  match c.type with
  | CompType.const => "const".data
  | CompType.pointer => "*".data
  | CompType.reference => "&".data
  | CompType.unsigned => "unsigned".data
  | CompType.ellipsis => "...".data
  | CompType.void => "void".data
  | CompType.bool => "bool".data
  | CompType.char => "char".data
  | CompType.wchar => "wchar_t".data
  | CompType.short => "short".data
  | CompType.int => "int".data
  | CompType.long => "long".data
  | CompType.longlong => "long long".data
  | CompType.float => "float".data
  | CompType.double => "double".data
  | CompType.type => c.name
  | CompType.func => []
  | CompType.array => []

/-- The `while (start < components.size())` loop of
`Demangler::DemangleComponents`, with `last` the running category.
The boolean result records an out-of-bounds `components[start]` read:
the recursive `DemangleComponents(components, start + 1, output)` call in
the `Func` case re-reads `components[start + 1]` before its loop guard,
which is out of bounds when `start + 1 = components.size()`.
The countdown over array dimensions (`while (count-- > 0)`) reads indices
`start + count - 1` down to `start`, i.e. the reversed slice of the run.
`gas` only bounds the recursion; every recursive call strictly increases
`start`, so with `gas > comps.length - start` the gas never runs out
before the loop guard `start < comps.length` fails. -/
def renderGo (comps : List ComponentInfo) :
    Nat → Nat → CompType → List Char → List Char × Bool
  | 0, _, _, out => (out, false)
  | gas + 1, start, last, out =>
    if h : start < comps.length then
      let c := comps.get ⟨start, h⟩
      let out1 := if c.type = last then out else out ++ [' ']
      match c.type with
      | CompType.func =>
        let inner := renderGo comps gas (start + 1)
          ((comps.getD (start + 1) default).type) (out1 ++ c.name ++ " (".data)
        (inner.1 ++ ")(".data ++ c.prms ++ ")".data,
          inner.2 || decide (comps.length ≤ start + 1))
      | CompType.array =>
        let count := ((comps.drop (start + 1)).takeWhile
          (fun x => x.type == CompType.array)).length + 1
        let base :=
          if h2 : start + count < comps.length then
            let inner := renderGo comps gas (start + count)
              ((comps.get ⟨start + count, h2⟩).type) (out1 ++ "(".data)
            (inner.1 ++ ") ".data, inner.2)
          else (out1, false)
        let dims := (((comps.drop start).take count).reverse).map
          (fun x => "[".data ++ intChars x.length ++ "]".data)
        (base.1 ++ dims.flatten, base.2)
      | _ => renderGo comps gas (start + 1) c.type (out1 ++ token c)
    else (out, false)

/-- `Demangler::DemangleComponents`: empty check, initial
`components[start].type` read (out of bounds when `start` is past the
end of a non-empty vector), then the rendering loop. -/
def renderComps (comps : List ComponentInfo) (start : Nat)
    (out : List Char) : List Char × Bool :=
  if comps.isEmpty then (out, false)
  else
    let r := renderGo comps (comps.length + 1) start
      ((comps.getD start default).type) out
    (r.1, r.2 || decide (comps.length ≤ start))

/-- The digit-accumulation loop
`while (std::isdigit(input.Peek())) length = length * 10 + (input.Read() - '0');`.
Each iteration consumes one character (a digit peek implies the position
is in range), so with `gas = st.len - st.pos` the gas cannot run out
before the loop condition fails: at `gas = 0` the position is at the end
and the peek is the non-digit sentinel. -/
def readDigitsGo : Nat → SS → Nat → Nat × SS
  | 0, st, acc => (acc, st)
  | gas + 1, st, acc =>
    if (peek st).isDigit then
      let r := read st
      readDigitsGo gas r.2 (acc * 10 + (r.1.toNat - 48))
    else (acc, st)

/-- The digit run of `DemangleType`, starting from the current position. -/
def readDigits (st : SS) (acc : Nat) : Nat × SS :=
  readDigitsGo (st.len - st.pos) st acc

/-- The `'A'` dimension loop `while ((c = input.Read()) != '_')`, fuel
indexed: at the end of the input `Read` returns the sentinel without
advancing, so if no `'_'` remains the loop never exits (every fuel is
exhausted). -/
def aLoop : Nat → SS → Int → Option (Int × SS)
  | 0, _, _ => none
  | fuel + 1, st, acc =>
    let r := read st
    if r.1 = '_' then some (acc, r.2)
    else aLoop fuel r.2 (acc * 10 + ((r.1.toNat : Int) - 48))

/-- Call tags for the mutually recursive demangling functions:
`ty` is `DemangleType`, `tmpl` is `DemangleTemplate`, `tloop` its
do/while body, `raw` the length-prefixed copy loop of `DemangleType`,
`comp` the component do/while loop of `DemangleType`, `qloop` the `'Q'`
sub-name loop and `floop` the `'F'` parameter loop. -/
inductive Call where
  | ty (st : SS) (out : List Char)
  | tmpl (st : SS) (out : List Char)
  | tloop (st : SS) (out : List Char)
  | raw (st : SS) (start n : Nat) (out : List Char)
  | comp (st : SS) (comps : List ComponentInfo)
  | qloop (k : Nat) (st : SS) (nm : List Char)
  | floop (st : SS) (prms : List Char)
deriving Repr

/-- The stream a call starts from. -/
def Call.st : Call → SS
  | .ty st _ => st
  | .tmpl st _ => st
  | .tloop st _ => st
  | .raw st _ _ _ => st
  | .comp st _ => st
  | .qloop _ st _ => st
  | .floop st _ => st

/-- One fuel-indexed interpreter for the mutually recursive demangling
functions; the result triple carries the text output, the component list
(used only by `comp` calls) and the stream.  Branch by branch:

* `ty`: `Demangler::DemangleType`.  A leading `'-'` always takes the
  literal path (the C++ sets `literal = true` there); a digit run takes
  the literal path exactly when followed by `','` or `'>'` and otherwise
  copies up to `n` characters via `raw`; anything else collects
  components via `comp` and renders them onto the output.
* `tmpl`: `Demangler::DemangleTemplate`: emit `'<'`, then `tloop`.
* `tloop`: parse one type, then switch on one read character: `'>'` or
  the sentinel stop the loop and emit `'>'`, `','` emits `", "` and
  continues, any other character just continues.
* `raw`: `while ((input.Position - start) < length && input.Position <
  input.Length())`, copying characters verbatim except that `'<'` runs
  `DemangleTemplate`.
* `comp`: the component do/while loop of `DemangleType`; each component
  is prepended (`components.insert(components.begin(), ...)`);
  `'v' 'i' 'f' 'd' 'Q' 'F'` and the digit fallback (which rewinds one
  character) are terminal; the sentinel read terminates with the
  components collected so far; unknown characters continue.
* `qloop`: `while (count-- > 0)` parsing one sub-name per iteration and
  joining with `"::"`.
* `floop`: `while (input.Peek() != '_' && input.Peek() != '\0')`,
  joining parsed parameter types with `", "`. -/
def run : Nat → Call → Option (List Char × List ComponentInfo × SS)
  | 0, _ => none
  | fuel + 1, .ty st out =>
    let c := peek st
    if c = '-' then
      let d := readDigits (read st).2 0
      some (out ++ intChars (-(d.1 : Int)), [], d.2)
    else if c.isDigit then
      let d := readDigits st 0
      if peek d.2 = ',' ∨ peek d.2 = '>' then
        some (out ++ intChars (d.1 : Int), [], d.2)
      else run fuel (.raw d.2 d.2.pos d.1 out)
    else
      match run fuel (.comp st []) with
      | none => none
      | some (_, comps, st1) =>
        let r := renderComps comps 0 out
        some (r.1, [], { st1 with oob := st1.oob || r.2 })
  | fuel + 1, .tmpl st out => run fuel (.tloop st (out ++ ['<']))
  | fuel + 1, .tloop st out =>
    match run fuel (.ty st out) with
    | none => none
    | some (out1, _, st1) =>
      let r := read st1
      if r.1 = '>' then some (out1 ++ ['>'], [], r.2)
      else if r.1 = ',' then run fuel (.tloop r.2 (out1 ++ ", ".data))
      else if r.1 = nul then some (out1 ++ ['>'], [], r.2)
      else run fuel (.tloop r.2 out1)
  | fuel + 1, .raw st start n out =>
    if st.pos - start < n ∧ st.pos < st.len then
      let r := read st
      if r.1 = '<' then
        match run fuel (.tmpl r.2 out) with
        | none => none
        | some (out1, _, st1) => run fuel (.raw st1 start n out1)
      else run fuel (.raw r.2 start n (out ++ [r.1]))
    else some (out, [], st)
  | fuel + 1, .comp st0 comps =>
    let r := read st0
    let c := r.1
    let st := r.2
    if c = 'C' then run fuel (.comp st (mkMod CompType.const :: comps))
    else if c = 'P' then run fuel (.comp st (mkMod CompType.pointer :: comps))
    else if c = 'R' then run fuel (.comp st (mkMod CompType.reference :: comps))
    else if c = 'U' then run fuel (.comp st (mkMod CompType.unsigned :: comps))
    else if c = 'A' then
      match aLoop fuel st 0 with
      | none => none
      | some (n, st1) => run fuel (.comp st1 (mkArr n :: comps))
    else if c = 'v' then some ([], mkMod CompType.void :: comps, st)
    else if c = 'i' then some ([], mkMod CompType.int :: comps, st)
    else if c = 'f' then some ([], mkMod CompType.float :: comps, st)
    else if c = 'd' then some ([], mkMod CompType.double :: comps, st)
    else if c = 'Q' then
      let rq := read st
      match run fuel (.qloop (((rq.1.toNat : Int) - 48).toNat) rq.2 []) with
      | none => none
      | some (nm, _, st1) => some ([], mkNamed nm :: comps, st1)
    else if c = 'F' then
      match run fuel (.floop st []) with
      | none => none
      | some (prms, _, st1) =>
        let st2 := (read st1).2
        match run fuel (.ty st2 []) with
        | none => none
        | some (ret, _, st3) =>
          some ([], mkFunc (if prms = "void".data then [] else prms) ret :: comps,
            st3)
    else if c = nul then some ([], comps, st)
    else if c.isDigit then
      match run fuel (.ty { st with pos := st.pos - 1 } []) with
      | none => none
      | some (nm, _, st1) => some ([], mkNamed nm :: comps, st1)
    else run fuel (.comp st comps)
  | fuel + 1, .qloop k st nm =>
    if k = 0 then some (nm, [], st)
    else
      match run fuel (.ty st nm) with
      | none => none
      | some (nm1, _, st1) =>
        run fuel (.qloop (k - 1) st1 (if 0 < k - 1 then nm1 ++ "::".data else nm1))
  | fuel + 1, .floop st prms =>
    if peek st ≠ '_' ∧ peek st ≠ nul then
      let prms1 := if prms = [] then prms else prms ++ ", ".data
      match run fuel (.ty st prms1) with
      | none => none
      | some (prms2, _, st1) => run fuel (.floop st1 prms2)
    else some (prms, [], st)

/-- `Demangler::DemangleType`. -/
def demangleType (fuel : Nat) (st : SS) (out : List Char) :
    Option (List Char × SS) :=
  (run fuel (.ty st out)).map fun r => (r.1, r.2.2)

/-- `Demangler::DemangleTemplate`. -/
def demangleTemplate (fuel : Nat) (st : SS) (out : List Char) :
    Option (List Char × SS) :=
  (run fuel (.tmpl st out)).map fun r => (r.1, r.2.2)

/-- The component do/while loop of `DemangleType`, returning the
collected component list. -/
def compLoop (fuel : Nat) (st : SS) (comps : List ComponentInfo) :
    Option (List ComponentInfo × SS) :=
  (run fuel (.comp st comps)).map fun r => (r.2.1, r.2.2)

/-- The scan loop of `Demangler::ScanNameEnd`:
`for (int i = input.Position; i < input.Length() - 1; ++i)` keeping the
last `i` with `input[i] == '_' && input[i + 1] == '_'`.  `i` grows by one
per iteration, so with `gas = st.len - i` the gas cannot run out before
the loop condition `i < len - 1` fails. -/
def scanGo (st : SS) : Nat → Nat → Nat → Nat
  | 0, _, e => e
  | gas + 1, i, e =>
    if i + 1 < st.len then
      scanGo st gas (i + 1)
        (if charAt st i = '_' ∧ charAt st (i + 1) = '_' then i else e)
    else e

/-- `Demangler::ScanNameEnd`: the right-most `"__"` start at or after the
current position, defaulting to the input length. -/
def scanNameEnd (st : SS) : Nat := scanGo st (st.len - st.pos) st.pos st.len

/-- The copy loop of `Demangler::DemangleName`:
`while (input.Position < end)`, copying characters and expanding `'<'`
through `DemangleTemplate`. -/
def nameLoop : Nat → SS → Nat → List Char → Option (List Char × SS)
  | 0, _, _, _ => none
  | fuel + 1, st, e, out =>
    if st.pos < e then
      let r := read st
      if r.1 = '<' then
        match demangleTemplate fuel r.2 out with
        | none => none
        | some (out1, st1) => nameLoop fuel st1 e out1
      else nameLoop fuel r.2 e (out ++ [r.1])
    else some (out, st)

/-- `Demangler::DemangleName`: scan for the split point, copy the name,
then advance the position two characters when the split point is before
the end of the input. -/
def demangleName (fuel : Nat) (st : SS) : Option (List Char × SS) :=
  let e := scanNameEnd st
  match nameLoop fuel st e [] with
  | none => none
  | some (out, st1) =>
    some (out, if e < st1.len then { st1 with pos := st1.pos + 2 } else st1)

/-- The top-level parameter loop of `Demangler::Demangle`:
`while (input.Position < input.Length())`, joining types with `", "`. -/
def paramsLoop : Nat → SS → List Char → Option (List Char × SS)
  | 0, _, _ => none
  | fuel + 1, st, out =>
    if st.pos < st.len then
      let out1 := if out = [] then out else out ++ ", ".data
      match demangleType fuel st out1 with
      | none => none
      | some (out2, st1) => paramsLoop fuel st1 out2
    else some (out, st)

/-- Step 2 of `Demangle`: parse the owner type when the cursor is not at
the end and the next character is not `'F'`. -/
def phase2 (fuel : Nat) (st : SS) : Option (List Char × SS) :=
  if st.pos < st.len ∧ peek st ≠ 'F' then demangleType fuel st []
  else some ([], st)

/-- Step 3 of `Demangle`: consume a `'C'` marking a const member. -/
def phaseConst (st : SS) : Bool × SS :=
  if peek st = 'C' then (true, (read st).2) else (false, st)

/-- Step 4 of `Demangle`: on `'F'`, consume it and parse the parameter
list to the end of the input. -/
def phaseParams (fuel : Nat) (st : SS) : Option (List Char × SS) :=
  if peek st = 'F' then paramsLoop fuel (read st).2 [] else some ([], st)

/-- Step 5 of `Demangle`: compose
`type:: + name + (params) + " const"`, each part only when present. -/
def assemble (ty nm prms : List Char) (konst : Bool) : List Char :=
  (if ty = [] then [] else ty ++ "::".data) ++ nm
    ++ (if prms = [] then [] else "(".data ++ prms ++ ")".data)
    ++ (if konst then " const".data else [])

/-- The initial stream over a symbol. -/
def initSS (s : String) : SS := ⟨s.data, 0, false⟩

/-- `Demangler::Demangle`, also returning the final stream state. -/
def demangleSt (fuel : Nat) (s : String) : Option (List Char × SS) :=
  match demangleName fuel (initSS s) with
  | none => none
  | some (nm, st1) =>
    match phase2 fuel st1 with
    | none => none
    | some (ty, st2) =>
      let pc := phaseConst st2
      match phaseParams fuel pc.2 with
      | none => none
      | some (prms, st3) => some (assemble ty nm prms pc.1, st3)

/-- `Demangler::Demangle`: the returned string. -/
def demangle (fuel : Nat) (s : String) : Option (List Char) :=
  (demangleSt fuel s).map Prod.fst

/-! ### Cursor-position preservation

`after a b` says `b` is a stream state reachable from `a` by the parsing
primitives: same text, and a position bounded by `max a.pos a.len`.  Every
parsing function preserves it; only `DemangleName`'s final `Position += 2`
can push the position past the text length. -/

/-- Reachability bound for stream states: the text is unchanged and the
position never grows past `max` of the starting position and the length. -/
def after (a b : SS) : Prop :=
  b.data = a.data ∧ b.pos ≤ max a.pos a.data.length

theorem after_refl (a : SS) : after a a := ⟨rfl, le_max_left _ _⟩

theorem after_trans {a b c : SS} (h1 : after a b) (h2 : after b c) :
    after a c := by
  obtain ⟨hd1, hp1⟩ := h1
  obtain ⟨hd2, hp2⟩ := h2
  refine ⟨hd2.trans hd1, ?_⟩
  rw [hd1] at hp2
  omega

/-- Changing only the ghost flag preserves reachability. -/
theorem after_oob {a b : SS} (h : after a b) (x : Bool) :
    after a { b with oob := x } := h

theorem read_after (st : SS) : after st (read st).2 := by
  unfold read
  split
  · next h =>
    refine ⟨rfl, ?_⟩
    simp only [SS.len] at h
    simp only
    omega
  · exact after_refl st

/-- A read at or past the end yields the sentinel and leaves the state
unchanged. -/
theorem read_at_end {st : SS} (h : st.len ≤ st.pos) : read st = (nul, st) := by
  unfold read
  rw [dif_neg (by omega)]

/-- A peek at or past the end yields the sentinel. -/
theorem peek_at_end {st : SS} (h : st.len ≤ st.pos) : peek st = nul := by
  unfold peek
  rw [dif_neg (by omega)]

theorem readDigitsGo_after : ∀ (gas : Nat) (st : SS) (acc : Nat),
    after st (readDigitsGo gas st acc).2
  | 0, st, acc => after_refl st
  | gas + 1, st, acc => by
    unfold readDigitsGo
    split
    · exact after_trans (read_after st) (readDigitsGo_after gas _ _)
    · exact after_refl st

theorem readDigits_after (st : SS) (acc : Nat) :
    after st (readDigits st acc).2 :=
  readDigitsGo_after _ st acc

theorem aLoop_after : ∀ (fuel : Nat) (st : SS) (acc : Int) (r : Int × SS),
    aLoop fuel st acc = some r → after st r.2
  | 0, _, _, _, h => by simp [aLoop] at h
  | fuel + 1, st, acc, r, h => by
    unfold aLoop at h
    dsimp only at h
    split at h
    · cases h
      exact read_after st
    · exact after_trans (read_after st) (aLoop_after fuel _ _ r h)

/-- Rewinding one position (`input.Position--`) preserves reachability. -/
theorem after_rewind (a : SS) : after a { a with pos := a.pos - 1 } :=
  ⟨rfl, by simp only; omega⟩

/-- Every demangling call preserves the text, and its final position is
bounded by `max` of the starting position and the text length: no parsing
step ever pushes the cursor past the end of the input. -/
theorem run_after : ∀ (fuel : Nat) (c : Call)
    (r : List Char × List ComponentInfo × SS),
    run fuel c = some r → after c.st r.2.2
  | 0, _, _, h => by simp [run] at h
  | fuel + 1, .ty st out, r, h => by
    unfold run at h
    dsimp only at h
    split at h
    · cases h
      exact after_trans (read_after st) (readDigits_after _ _)
    · split at h
      · split at h
        · cases h
          exact readDigits_after st 0
        · exact after_trans (readDigits_after st 0) (run_after fuel _ r h)
      · split at h
        · exact Option.noConfusion h
        · next o comps st1 heq =>
          cases h
          exact after_oob (run_after fuel _ _ heq) _
  | fuel + 1, .tmpl st out, r, h => by
    unfold run at h
    exact run_after fuel (.tloop st (out ++ ['<'])) r h
  | fuel + 1, .tloop st out, r, h => by
    unfold run at h
    split at h
    · exact Option.noConfusion h
    · next out1 o st1 heq =>
      have h1 : after st st1 := run_after fuel _ _ heq
      dsimp only at h
      split at h
      · cases h
        exact after_trans h1 (read_after st1)
      · split at h
        · exact after_trans h1
            (after_trans (read_after st1) (run_after fuel _ r h))
        · split at h
          · cases h
            exact after_trans h1 (read_after st1)
          · exact after_trans h1
              (after_trans (read_after st1) (run_after fuel _ r h))
  | fuel + 1, .raw st start n out, r, h => by
    unfold run at h
    dsimp only at h
    split at h
    · split at h
      · split at h
        · exact Option.noConfusion h
        · next out1 o st1 heq =>
          exact after_trans (read_after st)
            (after_trans (run_after fuel _ _ heq) (run_after fuel _ r h))
      · exact after_trans (read_after st) (run_after fuel _ r h)
    · cases h
      exact after_refl st
  | fuel + 1, .comp st0 comps, r, h => by
    unfold run at h
    dsimp only at h
    have hr : after st0 (read st0).2 := read_after st0
    by_cases h1 : (read st0).1 = 'C'
    · rw [if_pos h1] at h
      exact after_trans hr (run_after fuel
        (.comp (read st0).2 (mkMod CompType.const :: comps)) r h)
    rw [if_neg h1] at h
    by_cases h2 : (read st0).1 = 'P'
    · rw [if_pos h2] at h
      exact after_trans hr (run_after fuel
        (.comp (read st0).2 (mkMod CompType.pointer :: comps)) r h)
    rw [if_neg h2] at h
    by_cases h3 : (read st0).1 = 'R'
    · rw [if_pos h3] at h
      exact after_trans hr (run_after fuel
        (.comp (read st0).2 (mkMod CompType.reference :: comps)) r h)
    rw [if_neg h3] at h
    by_cases h4 : (read st0).1 = 'U'
    · rw [if_pos h4] at h
      exact after_trans hr (run_after fuel
        (.comp (read st0).2 (mkMod CompType.unsigned :: comps)) r h)
    rw [if_neg h4] at h
    by_cases h5 : (read st0).1 = 'A'
    · rw [if_pos h5] at h
      split at h
      · exact Option.noConfusion h
      · next n1 st1 heq =>
        exact after_trans hr (after_trans (aLoop_after fuel _ _ _ heq)
          (run_after fuel (.comp st1 (mkArr n1 :: comps)) r h))
    rw [if_neg h5] at h
    by_cases h6 : (read st0).1 = 'v'
    · rw [if_pos h6] at h
      cases h
      exact hr
    rw [if_neg h6] at h
    by_cases h7 : (read st0).1 = 'i'
    · rw [if_pos h7] at h
      cases h
      exact hr
    rw [if_neg h7] at h
    by_cases h8 : (read st0).1 = 'f'
    · rw [if_pos h8] at h
      cases h
      exact hr
    rw [if_neg h8] at h
    by_cases h9 : (read st0).1 = 'd'
    · rw [if_pos h9] at h
      cases h
      exact hr
    rw [if_neg h9] at h
    by_cases h10 : (read st0).1 = 'Q'
    · rw [if_pos h10] at h
      split at h
      · exact Option.noConfusion h
      · next nm o st1 heq =>
        cases h
        exact after_trans hr
          (after_trans (read_after (read st0).2) (run_after fuel _ _ heq))
    rw [if_neg h10] at h
    by_cases h11 : (read st0).1 = 'F'
    · rw [if_pos h11] at h
      split at h
      · exact Option.noConfusion h
      · next prms o st1 heq =>
        split at h
        · exact Option.noConfusion h
        · next ret o2 st3 heq2 =>
          cases h
          exact after_trans hr
            (after_trans (run_after fuel (.floop (read st0).2 []) (prms, o, st1) heq)
              (after_trans (read_after st1)
                (run_after fuel (.ty (read st1).2 []) (ret, o2, st3) heq2)))
    rw [if_neg h11] at h
    by_cases h12 : (read st0).1 = nul
    · rw [if_pos h12] at h
      cases h
      exact hr
    rw [if_neg h12] at h
    by_cases h13 : (read st0).1.isDigit = true
    · rw [if_pos h13] at h
      split at h
      · exact Option.noConfusion h
      · next nm o st1 heq =>
        cases h
        exact after_trans hr
          (after_trans (after_rewind (read st0).2) (run_after fuel _ _ heq))
    rw [if_neg h13] at h
    exact after_trans hr (run_after fuel (.comp (read st0).2 comps) r h)
  | fuel + 1, .qloop k st nm, r, h => by
    unfold run at h
    split at h
    · cases h
      exact after_refl st
    · split at h
      · exact Option.noConfusion h
      · next nm1 o st1 heq =>
        exact after_trans (run_after fuel (.ty st nm) _ heq)
          (run_after fuel (.qloop (k - 1) st1
            (if 0 < k - 1 then nm1 ++ "::".data else nm1)) r h)
  | fuel + 1, .floop st prms, r, h => by
    unfold run at h
    dsimp only at h
    split at h
    · split at h
      · exact Option.noConfusion h
      · next p2 o st1 heq =>
        exact after_trans
          (run_after fuel (.ty st (if prms = [] then prms else prms ++ ", ".data))
            _ heq)
          (run_after fuel (.floop st1 p2) r h)
    · cases h
      exact after_refl st

theorem demangleType_after {fuel : Nat} {st : SS} {out : List Char}
    {r : List Char × SS} (h : demangleType fuel st out = some r) :
    after st r.2 := by
  unfold demangleType at h
  rw [Option.map_eq_some'] at h
  obtain ⟨a, ha, hmap⟩ := h
  have := run_after fuel (.ty st out) a ha
  rw [← hmap]
  exact this

theorem demangleTemplate_after {fuel : Nat} {st : SS} {out : List Char}
    {r : List Char × SS} (h : demangleTemplate fuel st out = some r) :
    after st r.2 := by
  unfold demangleTemplate at h
  rw [Option.map_eq_some'] at h
  obtain ⟨a, ha, hmap⟩ := h
  have := run_after fuel (.tmpl st out) a ha
  rw [← hmap]
  exact this

theorem nameLoop_after : ∀ (fuel : Nat) (st : SS) (e : Nat) (out : List Char)
    (r : List Char × SS), nameLoop fuel st e out = some r → after st r.2
  | 0, _, _, _, _, h => by simp [nameLoop] at h
  | fuel + 1, st, e, out, r, h => by
    unfold nameLoop at h
    dsimp only at h
    split at h
    · split at h
      · split at h
        · exact Option.noConfusion h
        · next out1 st1 heq =>
          exact after_trans (read_after st)
            (after_trans (demangleTemplate_after heq)
              (nameLoop_after fuel _ _ _ r h))
      · exact after_trans (read_after st) (nameLoop_after fuel _ _ _ r h)
    · cases h
      exact after_refl st

theorem paramsLoop_after : ∀ (fuel : Nat) (st : SS) (out : List Char)
    (r : List Char × SS), paramsLoop fuel st out = some r → after st r.2
  | 0, _, _, _, h => by simp [paramsLoop] at h
  | fuel + 1, st, out, r, h => by
    unfold paramsLoop at h
    dsimp only at h
    split at h
    · split at h
      · exact Option.noConfusion h
      · next out2 st1 heq =>
        exact after_trans (demangleType_after heq)
          (paramsLoop_after fuel _ _ r h)
    · cases h
      exact after_refl st

/-- `DemangleName` keeps the text and can push the position at most two
characters past the bound `max st.pos st.len` (the separator skip). -/
theorem demangleName_bound {fuel : Nat} {st : SS} {nm : List Char} {st' : SS}
    (h : demangleName fuel st = some (nm, st')) :
    st'.data = st.data ∧ st'.pos ≤ max st.pos st.data.length + 2 := by
  unfold demangleName at h
  dsimp only at h
  split at h
  · exact Option.noConfusion h
  · next out1 st1 heq =>
    have ha := nameLoop_after fuel st (scanNameEnd st) [] (out1, st1) heq
    obtain ⟨hd, hp⟩ := ha
    cases h
    split
    · refine ⟨hd, ?_⟩
      dsimp only
      dsimp only at hp
      omega
    · refine ⟨hd, ?_⟩
      dsimp only at hp
      omega

/-- The final cursor state of `Demangle` stays within two characters of
the input length. -/
theorem demangleSt_bound {fuel : Nat} {s : String}
    {r : List Char × SS} (h : demangleSt fuel s = some r) :
    r.2.data = s.data ∧ r.2.pos ≤ s.data.length + 2 := by
  unfold demangleSt at h
  split at h
  · exact Option.noConfusion h
  · next nm st1 heq1 =>
    have hb1 := demangleName_bound heq1
    simp only [initSS] at hb1
    split at h
    · exact Option.noConfusion h
    · next ty st2 heq2 =>
      have hb2 : st2.data = st1.data ∧ st2.pos ≤ max st1.pos st1.data.length := by
        unfold phase2 at heq2
        split at heq2
        · exact (demangleType_after heq2 : after st1 st2)
        · cases heq2
          exact after_refl st1
      dsimp only at h
      split at h
      · exact Option.noConfusion h
      · next prms st3 heq3 =>
        have hb3 : st3.data = (phaseConst st2).2.data ∧
            st3.pos ≤ max (phaseConst st2).2.pos (phaseConst st2).2.data.length := by
          unfold phaseParams at heq3
          split at heq3
          · exact after_trans (read_after (phaseConst st2).2)
              (paramsLoop_after fuel _ _ _ heq3)
          · cases heq3
            exact after_refl _
        have hbc : (phaseConst st2).2.data = st2.data ∧
            (phaseConst st2).2.pos ≤ max st2.pos st2.data.length := by
          unfold phaseConst
          split
          · exact read_after st2
          · exact after_refl st2
        cases h
        refine ⟨?_, ?_⟩
        · simp only
          rw [hb3.1, hbc.1, hb2.1, hb1.1]
        · obtain ⟨hd1, hp1⟩ := hb1
          obtain ⟨hd2, hp2⟩ := hb2
          obtain ⟨hdc, hpc⟩ := hbc
          obtain ⟨hd3, hp3⟩ := hb3
          simp only
          rw [hd1] at hp2
          rw [hdc, hd2, hd1] at hp3
          rw [hd2, hd1] at hpc
          omega

/-! ### The separator scan -/

/-- A two-underscore separator occurrence at index `i`, within range and
at or after the stream position. -/
def sepAt (st : SS) (i : Nat) : Prop :=
  st.pos ≤ i ∧ i + 1 < st.len ∧ charAt st i = '_' ∧ charAt st (i + 1) = '_'

/-- A separator occurrence at index `i`, ignoring the position. -/
def sepRaw (st : SS) (i : Nat) : Prop :=
  i + 1 < st.len ∧ charAt st i = '_' ∧ charAt st (i + 1) = '_'

theorem scanGo_none (st : SS) : ∀ (gas i e : Nat),
    (∀ j, i ≤ j → ¬ sepRaw st j) → scanGo st gas i e = e
  | 0, _, _, _ => rfl
  | gas + 1, i, e, hno => by
    unfold scanGo
    split
    · next hlt =>
      rw [if_neg ?_]
      · exact scanGo_none st gas (i + 1) e fun j hj => hno j (by omega)
      · intro hc
        exact hno i le_rfl ⟨hlt, hc.1, hc.2⟩
    · rfl

theorem scanGo_max (st : SS) : ∀ (gas i e j : Nat),
    st.len ≤ i + 1 + gas → i ≤ j → sepRaw st j →
    sepRaw st (scanGo st gas i e) ∧ j ≤ scanGo st gas i e
  | 0, i, e, j, hg, hij, hsep => by
    exact absurd hsep.1 (by omega)
  | gas + 1, i, e, j, hg, hij, hsep => by
    unfold scanGo
    split
    · next hlt =>
      by_cases hex : ∃ j2, i + 1 ≤ j2 ∧ sepRaw st j2
      · obtain ⟨j2, hj2, hsep2⟩ := hex
        rcases Nat.lt_or_ge j (i + 1) with hj | hj
        · have := scanGo_max st gas (i + 1)
            (if charAt st i = '_' ∧ charAt st (i + 1) = '_' then i else e)
            j2 (by omega) hj2 hsep2
          exact ⟨this.1, by omega⟩
        · exact scanGo_max st gas (i + 1) _ j (by omega) hj hsep
      · have hji : j = i := by
          rcases Nat.lt_or_ge j (i + 1) with hj | hj
          · omega
          · exact absurd ⟨j, hj, hsep⟩ hex
        subst hji
        rw [if_pos ⟨hsep.2.1, hsep.2.2⟩]
        rw [scanGo_none st gas (j + 1) j
          (fun j2 hj2 hs => hex ⟨j2, hj2, hs⟩)]
        exact ⟨hsep, le_rfl⟩
    · next hge =>
      exact absurd hsep.1 (by omega)

/-- `ScanNameEnd` returns a separator occurrence that is right-most among
all occurrences in the remainder. -/
theorem scanNameEnd_max {st : SS} {j : Nat} (h : sepAt st j) :
    sepAt st (scanNameEnd st) ∧ j ≤ scanNameEnd st := by
  obtain ⟨hpj, hraw⟩ : st.pos ≤ j ∧ sepRaw st j := ⟨h.1, h.2.1, h.2.2.1, h.2.2.2⟩
  have := scanGo_max st (st.len - st.pos) st.pos st.len j (by omega) hpj hraw
  unfold scanNameEnd
  exact ⟨⟨by omega, this.1.1, this.1.2.1, this.1.2.2⟩, this.2⟩

/-- `ScanNameEnd` returns the input length when no separator occurs in
the remainder. -/
theorem scanNameEnd_none {st : SS} (h : ∀ j, ¬ sepAt st j) :
    scanNameEnd st = st.len := by
  unfold scanNameEnd
  refine scanGo_none st _ st.pos st.len fun j hj hraw => h j ⟨hj, hraw⟩

/-! ### The length-prefixed copy loop -/

/-- When no `'<'` occurs among them, the copy loop of `DemangleType`
consumes exactly `min` of the requested count (less what is already
consumed) and the remaining input, appending those characters verbatim. -/
theorem rawLoop_copy : ∀ (m fuel : Nat) (st : SS) (start n : Nat)
    (out : List Char), start ≤ st.pos →
    m = min (n - (st.pos - start)) (st.len - st.pos) →
    m + 1 ≤ fuel →
    '<' ∉ (st.data.drop st.pos).take m →
    run fuel (.raw st start n out) =
      some (out ++ (st.data.drop st.pos).take m, [],
        { st with pos := st.pos + m })
  | m, 0, _, _, _, _, _, _, hf, _ => absurd hf (by omega)
  | 0, fuel + 1, st, start, n, out, hs, hm, hf, hlt => by
    simp only [SS.len] at hm
    unfold run
    rw [if_neg ?_]
    · simp
    · intro hc
      simp only [SS.len] at hc
      omega
  | m + 1, fuel + 1, st, start, n, out, hs, hm, hf, hlt => by
    simp only [SS.len] at hm
    have hposD : st.pos < st.data.length := by omega
    have hpos : st.pos < st.len := hposD
    have hcond : st.pos - start < n ∧ st.pos < st.len := ⟨by omega, hpos⟩
    unfold run
    rw [if_pos hcond]
    dsimp only
    rw [read, dif_pos hpos]
    dsimp only
    have hslice : (st.data.drop st.pos).take (m + 1) =
        st.data.get ⟨st.pos, hposD⟩ :: (st.data.drop (st.pos + 1)).take m := by
      rw [List.drop_eq_getElem_cons hposD]
      rfl
    have hne : ¬ st.data.get ⟨st.pos, hposD⟩ = '<' := by
      intro hc
      apply hlt
      rw [hslice, ← hc]
      exact List.mem_cons_self _ _
    rw [if_neg hne]
    have h1 : start ≤ st.pos + 1 := by omega
    have h2 : m = min (n - (st.pos + 1 - start)) (st.data.length - (st.pos + 1)) := by
      omega
    have h3 : m + 1 ≤ fuel := by omega
    have h4 : '<' ∉ (st.data.drop (st.pos + 1)).take m := by
      intro hc
      apply hlt
      rw [hslice]
      exact List.mem_cons_of_mem _ hc
    rw [rawLoop_copy m fuel { st with pos := st.pos + 1 } start n
      (out ++ [st.data.get ⟨st.pos, hposD⟩]) h1 h2 h3 h4]
    rw [hslice]
    simp only [List.append_assoc, List.singleton_append]
    have hsum : st.pos + 1 + m = st.pos + (m + 1) := by omega
    rw [hsum]

/-! ### Rendering helper lemmas -/

/-- A mapped list of array-dimension components is all arrays. -/
theorem takeWhileArr : ∀ (l : List Int),
    ((l.map mkArr).takeWhile (fun x => x.type == CompType.array)) = l.map mkArr
  | [] => rfl
  | a :: t => by
    simp [List.takeWhile_cons, mkArr, takeWhileArr t]

/-- When everything from `start` on is a run of array-dimension
components, the renderer consumes the whole run in one step, emitting the
dimensions of the reversed slice (declaration order). -/
theorem renderGo_arrayRun (comps : List ComponentInfo) (gas start : Nat)
    (last : CompType) (out : List Char) (d : Int) (ds : List Int)
    (hdrop : comps.drop start = (d :: ds).map mkArr) :
    renderGo comps (gas + 1) start last out =
      ((if CompType.array = last then out else out ++ [' ']) ++
        ((d :: ds).reverse.map
          (fun k => "[".data ++ intChars k ++ "]".data)).flatten, false) := by
  have hlen : comps.length = start + (ds.length + 1) := by
    have h := congrArg List.length hdrop
    simp [List.length_drop] at h
    omega
  have hstart : start < comps.length := by omega
  have hget : comps.get ⟨start, hstart⟩ = mkArr d := by
    have h0 : comps.get ⟨start, hstart⟩ = (comps.drop start).get ⟨0, by
      rw [hdrop]; simp⟩ := by
      simp [List.getElem_drop]
    rw [h0]
    simp [hdrop]
  have hdrop1 : comps.drop (start + 1) = ds.map mkArr := by
    have hdd : comps.drop (start + 1) = (comps.drop start).drop 1 := by
      rw [List.drop_drop]
    rw [hdd, hdrop]
    simp
  simp only [renderGo, dif_pos hstart]
  rw [hget]
  dsimp only [mkArr]
  rw [hdrop1, takeWhileArr ds, List.length_map]
  rw [dif_neg (by omega)]
  rw [hdrop]
  rw [show ds.length + 1 = ((d :: ds).map mkArr).length by simp, List.take_length]
  simp only [← List.map_reverse, List.map_map]
  simp [Function.comp_def, mkArr]

/-! ### Non-termination of the array-dimension loop on "__A4" -/

/-- At the end of "__A4" the `'A'` dimension loop makes no progress: the
sentinel is read forever and the fuel always runs out. -/
theorem aLoopStuck4 : ∀ (fuel : Nat) (acc : Int),
    aLoop fuel ⟨"__A4".data, 4, false⟩ acc = none
  | 0, _ => rfl
  | fuel + 1, acc => by
    unfold aLoop
    rw [read_at_end (by decide)]
    rw [if_neg (by decide)]
    exact aLoopStuck4 fuel _

theorem aLoopStuck3 : ∀ fuel : Nat,
    aLoop fuel ⟨"__A4".data, 3, false⟩ 0 = none
  | 0 => rfl
  | fuel + 1 => by
    unfold aLoop
    rw [show read ⟨"__A4".data, 3, false⟩ = ('4', ⟨"__A4".data, 4, false⟩)
      from by decide]
    rw [if_neg (by decide)]
    exact aLoopStuck4 fuel _

theorem compStuck : ∀ fuel : Nat,
    run fuel (.comp ⟨"__A4".data, 2, false⟩ []) = none
  | 0 => rfl
  | fuel + 1 => by
    unfold run
    rw [show read ⟨"__A4".data, 2, false⟩ = ('A', ⟨"__A4".data, 3, false⟩)
      from by decide]
    dsimp only
    rw [if_neg (by decide), if_neg (by decide), if_neg (by decide),
      if_neg (by decide), if_pos rfl]
    rw [aLoopStuck3 fuel]

theorem tyStuck : ∀ fuel : Nat,
    run fuel (.ty ⟨"__A4".data, 2, false⟩ []) = none
  | 0 => rfl
  | fuel + 1 => by
    unfold run
    dsimp only
    rw [show peek ⟨"__A4".data, 2, false⟩ = 'A' from by decide]
    rw [if_neg (by decide), if_neg (by decide)]
    rw [compStuck fuel]

theorem nameA4 : ∀ fuel : Nat,
    demangleName (fuel + 1) (initSS "__A4") =
      some ([], ⟨"__A4".data, 2, false⟩) := by
  intro fuel
  unfold demangleName
  rw [show scanNameEnd (initSS "__A4") = 0 from by decide]
  unfold nameLoop
  dsimp only
  rw [if_neg (by decide)]
  rfl

/-! ### Claim theorems -/

/-- C1: the claim states that `Demangle` terminates for every finite
input, including an `'A'` array construct whose terminating `'_'` never
appears before end-of-input.  The code violates this: on the input
`"__A4"` the dimension loop `while ((c = input.Read()) != '_')` re-reads
the end-of-input sentinel forever without advancing, so `Demangle` never
returns — in the fuel model, every fuel is exhausted. -/
theorem c1_array_nonterminating : ∀ fuel : Nat, demangle fuel "__A4" = none := by
  intro fuel
  match fuel with
  | 0 => rfl
  | f + 1 =>
    unfold demangle demangleSt
    rw [nameA4 f]
    dsimp only
    unfold phase2
    rw [if_pos (by exact ⟨by decide, by decide⟩)]
    unfold demangleType
    rw [tyStuck (f + 1)]
    rfl

/-- C2 counterexample: the claim asserts `0 <= position <= len(text)`
throughout every `Demangle` call and that reads past the end leave the
position equal to `len(text)`.  On `"a<__"` (length 4) the template parse
inside the name overshoots the split point and the separator skip then
pushes the final position to 6 > 4; a read there leaves the position at 6,
not at 4. -/
theorem c2_counterexample :
    (demangleSt 30 "a<__").map (fun r => r.2.pos) = some 6 ∧
      "a<__".length = 4 ∧
      read ⟨"a<__".data, 6, false⟩ = (nul, ⟨"a<__".data, 6, false⟩) :=
  ⟨by decide, by decide, by decide⟩

/-- C2 amended: reads at or past the end yield the sentinel and leave the
position unchanged (not necessarily equal to the length); a read never
pushes the position past `max` of position and length, and the cursor
position at the end of every `Demangle` call is at most `len(text) + 2`
(only the separator skip of the name splitter can exceed the length, by
at most two). -/
theorem c2_cursor_bound :
    (∀ st : SS, st.len ≤ st.pos → read st = (nul, st)) ∧
      (∀ st : SS, (read st).2.pos ≤ max st.pos st.len) ∧
      (∀ (fuel : Nat) (s : String) (r : List Char × SS),
        demangleSt fuel s = some r → r.2.pos ≤ s.length + 2) := by
  refine ⟨fun st h => read_at_end h, fun st => (read_after st).2, ?_⟩
  intro fuel s r h
  have hb := demangleSt_bound h
  exact hb.2

theorem c2_cursor_bound_witness :
    read ⟨"ab".data, 5, false⟩ = (nul, ⟨"ab".data, 5, false⟩) ∧
      (⟨"PCi".data, 3, false⟩ : SS).pos ≤ "PCi".length + 2 :=
  ⟨c2_cursor_bound.1 ⟨"ab".data, 5, false⟩ (by decide),
    c2_cursor_bound.2.2 30 "PCi" ("PCi".data, ⟨"PCi".data, 3, false⟩) (by decide)⟩

/-- C3 counterexample: the claim says a digit run followed by
end-of-input is emitted as a numeric literal.  The code sets the literal
flag only on `','` or `'>'`: on the input `"5"` the branch takes the
length-prefixed path, which consumes nothing at end-of-input and emits
the empty string rather than `"5"`. -/
theorem c3_counterexample :
    demangleType 30 ⟨"5".data, 0, false⟩ [] =
        some ([], ⟨"5".data, 1, false⟩) ∧
      ([] : List Char) ≠ "5".data :=
  ⟨by decide, by decide⟩

/-- C3 amended: in the literal/length branch of `DemangleType`, a leading
`'-'` always yields the (negated) literal; without `'-'`, the literal is
emitted exactly when the character after the digit run is `','` or `'>'`
(end-of-input is not a literal trigger); otherwise up to `n` characters
are consumed verbatim (stopping at end of input), shown here for slices
free of `'<'`. -/
theorem c3_literal_length :
    (∀ (fuel : Nat) (st : SS) (out : List Char), peek st = '-' →
      demangleType (fuel + 1) st out =
        some (out ++ intChars (-((readDigits (read st).2 0).1 : Int)),
          (readDigits (read st).2 0).2)) ∧
      (∀ (fuel : Nat) (st : SS) (out : List Char), (peek st).isDigit →
        (peek (readDigits st 0).2 = ',' ∨ peek (readDigits st 0).2 = '>') →
        demangleType (fuel + 1) st out =
          some (out ++ intChars ((readDigits st 0).1 : Int),
            (readDigits st 0).2)) ∧
      (∀ (fuel : Nat) (st : SS) (out : List Char) (m : Nat),
        (peek st).isDigit →
        ¬(peek (readDigits st 0).2 = ',' ∨ peek (readDigits st 0).2 = '>') →
        m = min (readDigits st 0).1
          ((readDigits st 0).2.len - (readDigits st 0).2.pos) →
        m + 1 ≤ fuel →
        '<' ∉ ((readDigits st 0).2.data.drop (readDigits st 0).2.pos).take m →
        demangleType (fuel + 1) st out =
          some (out ++
            ((readDigits st 0).2.data.drop (readDigits st 0).2.pos).take m,
            { (readDigits st 0).2 with
              pos := (readDigits st 0).2.pos + m })) := by
  refine ⟨?_, ?_, ?_⟩
  · intro fuel st out hminus
    unfold demangleType run
    dsimp only
    rw [hminus, if_pos rfl]
    rfl
  · intro fuel st out hdig hlit
    have hne : ¬ peek st = '-' := by
      intro hc
      rw [hc] at hdig
      exact absurd hdig (by decide)
    unfold demangleType run
    dsimp only
    rw [if_neg hne, if_pos hdig, if_pos hlit]
    rfl
  · intro fuel st out m hdig hlit hm hf hlt
    have hne : ¬ peek st = '-' := by
      intro hc
      rw [hc] at hdig
      exact absurd hdig (by decide)
    unfold demangleType run
    dsimp only
    rw [if_neg hne, if_pos hdig, if_neg hlit]
    rw [rawLoop_copy m fuel (readDigits st 0).2 (readDigits st 0).2.pos
      (readDigits st 0).1 out le_rfl (by omega) hf hlt]
    rfl

theorem c3_literal_length_witness :
    demangleType 6 ⟨"-3x".data, 0, false⟩ [] =
        some ("-3".data, ⟨"-3x".data, 2, false⟩) ∧
      demangleType 6 ⟨"12,".data, 0, false⟩ [] =
        some ("12".data, ⟨"12,".data, 2, false⟩) ∧
      demangleType 4 ⟨"2ab,".data, 0, false⟩ [] =
        some ("ab".data, ⟨"2ab,".data, 3, false⟩) :=
  ⟨c3_literal_length.1 5 ⟨"-3x".data, 0, false⟩ [] (by decide),
    c3_literal_length.2.1 5 ⟨"12,".data, 0, false⟩ [] (by decide) (by decide),
    c3_literal_length.2.2 3 ⟨"2ab,".data, 0, false⟩ [] 2 (by decide) (by decide)
      (by decide) (by decide) (by decide)⟩

/-- C4: the claim says the start index passed to `DemangleComponents` is
always a valid index of a non-empty sequence, including the `start + 1`
recursion for a `Func` component that is last.  The code violates this:
the guard only checks emptiness, and on `"__FFv_v_v"` a lone `Func`
component triggers the recursive call with `start + 1 = 1` on a 1-element
vector, whose initial `components[start]` read is out of bounds (the
ghost `oob` flag records it); the C++ read is undefined behaviour. -/
theorem c4_oob_func_last :
    (demangleSt 40 "__FFv_v_v").map (fun r => r.2.oob) = some true ∧
      demangle 40 "__FFv_v_v" = some "(void ()(), void)".data :=
  ⟨by decide, by decide⟩

/-- C5 counterexample: the claim says `at(index)` returns the sentinel
for every out-of-range index including negative ones.  The code only
guards `index >= Length()`: a negative index reaches `Data[index]`,
which is undefined behaviour (modelled as `none`), not the sentinel. -/
theorem c5_counterexample :
    opAt ⟨"ab".data, 0, false⟩ (-1) = none ∧
      opAt ⟨"ab".data, 0, false⟩ (-1) ≠ some nul :=
  ⟨by decide, by decide⟩

/-- C5 amended: `at(index)` returns the sentinel for every index at or
past the end and reads the text byte for in-range indices; negative
indices are unchecked (undefined behaviour, no sentinel guarantee);
`read()` and `peek()` at or past the end return the sentinel (and
`read()` leaves the position unchanged). -/
theorem c5_cursor_ops :
    (∀ (st : SS) (i : Int), (st.len : Int) ≤ i → opAt st i = some nul) ∧
      (∀ (st : SS) (i : Int), 0 ≤ i → i < (st.len : Int) →
        opAt st i = some (charAt st i.toNat)) ∧
      (∀ st : SS, st.len ≤ st.pos → read st = (nul, st) ∧ peek st = nul) := by
  refine ⟨?_, ?_, fun st h => ⟨read_at_end h, peek_at_end h⟩⟩
  · intro st i h
    unfold opAt
    rw [if_pos h]
  · intro st i h0 hlt
    unfold opAt
    rw [if_neg (by omega), if_pos h0]

theorem c5_cursor_ops_witness :
    opAt ⟨"ab".data, 0, false⟩ 7 = some nul ∧
      opAt ⟨"ab".data, 0, false⟩ 1 = some (charAt ⟨"ab".data, 0, false⟩ 1) ∧
      (read ⟨"ab".data, 2, false⟩ = (nul, ⟨"ab".data, 2, false⟩) ∧
        peek ⟨"ab".data, 2, false⟩ = nul) :=
  ⟨c5_cursor_ops.1 ⟨"ab".data, 0, false⟩ 7 (by decide),
    c5_cursor_ops.2.1 ⟨"ab".data, 0, false⟩ 1 (by decide) (by decide),
    c5_cursor_ops.2.2 ⟨"ab".data, 2, false⟩ (by decide)⟩

/-- C6: a `Func` component followed by a `Pointer` component renders as
return type, space, `'('`, the recursively rendered wrapping modifiers
(`'*'`), `")("`, the stored parameter text and `')'`; in particular the
type encoding `"PFi_v"` renders as `"void (*)(int)"`. -/
theorem c6_function_pointer :
    (∀ p r : List Char,
      (renderComps [mkFunc p r, mkMod CompType.pointer] 0 []).1 =
        r ++ " (*)(".data ++ p ++ ")".data) ∧
      (demangleType 30 ⟨"PFi_v".data, 0, false⟩ []).map Prod.fst =
        some "void (*)(int)".data := by
  refine ⟨?_, by decide⟩
  intro p r
  have h1 : (renderComps [mkFunc p r, mkMod CompType.pointer] 0 []).1 =
      ((((r ++ " (".data) ++ "*".data) ++ ")(".data) ++ p) ++ ")".data := rfl
  rw [h1, show " (*)(".data = (" (".data ++ "*".data) ++ ")(".data from rfl]
  simp [List.append_assoc]

/-- C7: within a run of consecutive array-dimension components the
renderer appends each `"[count]"` in reverse index order within the run,
so dimensions print in declaration order; in particular the type encoding
`"A4_A3_i"` renders as `"int [4][3]"`. -/
theorem c7_multidim_array :
    (∀ ds : List Int, ds ≠ [] →
      (renderComps (mkMod CompType.int :: ds.map mkArr) 0 []).1 =
        "int ".data ++
          (ds.reverse.map (fun k => "[".data ++ intChars k ++ "]".data)).flatten) ∧
      (demangleType 30 ⟨"A4_A3_i".data, 0, false⟩ []).map Prod.fst =
        some "int [4][3]".data := by
  refine ⟨?_, by decide⟩
  intro ds hds
  match ds, hds with
  | d :: ds2, _ =>
    have step1 : (renderComps (mkMod CompType.int :: (d :: ds2).map mkArr) 0 []).1 =
        (renderGo (mkMod CompType.int :: (d :: ds2).map mkArr)
          ((ds2.map mkArr).length + 1 + 1) 1 CompType.int "int".data).1 := rfl
    rw [step1]
    rw [renderGo_arrayRun (mkMod CompType.int :: (d :: ds2).map mkArr)
      ((ds2.map mkArr).length + 1) 1 CompType.int "int".data d ds2 (by rfl)]
    simp

theorem c7_multidim_array_witness :
    ([(4 : Int), 3] ≠ []) ∧
      (renderComps (mkMod CompType.int :: [(4 : Int), 3].map mkArr) 0 []).1 =
        "int ".data ++
          ([(4 : Int), 3].reverse.map
            (fun k => "[".data ++ intChars k ++ "]".data)).flatten :=
  ⟨by decide, c7_multidim_array.1 [4, 3] (by decide)⟩

/-- C8: `ScanNameEnd` picks the right-most index `i` at or after the
current position with `text[i] == '_'` and `text[i+1] == '_'`, or the
input length when there is none; and when the split point is before the
end of the input, `DemangleName` advances the cursor two characters past
the state the copy loop reached. -/
theorem c8_rightmost_separator :
    (∀ (st : SS) (j : Nat), sepAt st j →
      sepAt st (scanNameEnd st) ∧ j ≤ scanNameEnd st) ∧
      (∀ st : SS, (∀ j, ¬ sepAt st j) → scanNameEnd st = st.len) ∧
      (∀ (fuel : Nat) (st : SS) (nm : List Char) (st2 : SS),
        demangleName fuel st = some (nm, st2) → scanNameEnd st < st.len →
        ∃ stMid : SS, nameLoop fuel st (scanNameEnd st) [] = some (nm, stMid) ∧
          st2.pos = stMid.pos + 2) := by
  refine ⟨fun st j h => scanNameEnd_max h, fun st h => scanNameEnd_none h, ?_⟩
  intro fuel st nm st2 h hlt
  unfold demangleName at h
  dsimp only at h
  split at h
  · exact Option.noConfusion h
  · next out1 st1 heq =>
    cases h
    refine ⟨st1, heq, ?_⟩
    have hd := (nameLoop_after fuel st (scanNameEnd st) [] (nm, st1) heq).1
    have hlen : st1.len = st.len := by
      rw [SS.len, SS.len, hd]
    rw [hlen, if_pos hlt]

theorem c8_rightmost_separator_witness :
    (sepAt ⟨"a__b__c".data, 0, false⟩ (scanNameEnd ⟨"a__b__c".data, 0, false⟩) ∧
      4 ≤ scanNameEnd ⟨"a__b__c".data, 0, false⟩) ∧
      scanNameEnd ⟨"ab".data, 0, false⟩ = (⟨"ab".data, 0, false⟩ : SS).len ∧
      (∃ stMid : SS,
        nameLoop 10 ⟨"a__b".data, 0, false⟩ (scanNameEnd ⟨"a__b".data, 0, false⟩)
            [] = some ("a".data, stMid) ∧
          (⟨"a__b".data, 3, false⟩ : SS).pos = stMid.pos + 2) :=
  ⟨c8_rightmost_separator.1 ⟨"a__b__c".data, 0, false⟩ 4
      (by exact ⟨by decide, by decide, by decide, by decide⟩),
    c8_rightmost_separator.2.1 ⟨"ab".data, 0, false⟩ (by
      intro j h
      obtain ⟨hp, hlt, hc1, hc2⟩ := h
      simp [SS.len] at hlt
      have hj : j = 0 := by omega
      subst hj
      exact absurd hc1 (by decide)),
    c8_rightmost_separator.2.2 10 ⟨"a__b".data, 0, false⟩ "a".data
      ⟨"a__b".data, 3, false⟩ (by decide) (by decide)⟩

/-- C9: the type encoding `"PCi"` parses into the component sequence
base-type-first (Int at index 0, then Const, then Pointer) and renders
exactly as `"int const *"`, with one space before each component whose
category differs from the previous one. -/
theorem c9_pointer_const_int :
    (compLoop 30 ⟨"PCi".data, 0, false⟩ []).map Prod.fst =
        some [mkMod CompType.int, mkMod CompType.const, mkMod CompType.pointer] ∧
      (renderComps [mkMod CompType.int, mkMod CompType.const,
          mkMod CompType.pointer] 0 []).1 = "int const *".data ∧
      (demangleType 30 ⟨"PCi".data, 0, false⟩ []).map Prod.fst =
        some "int const *".data :=
  ⟨by decide, by decide, by decide⟩

/-- C10 counterexample: the claim says that with no `'F'` marker the
composed output contains no parentheses.  The input `"x__PA2_i"`
contains no `'F'` at all, yet its owner type is a pointer-to-array and
renders with parentheses: `Demangle` yields `"int (*) [2]::x"`. -/
theorem c10_counterexample :
    demangle 40 "x__PA2_i" = some "int (*) [2]::x".data ∧
      'F' ∉ "x__PA2_i".data ∧ '(' ∈ "int (*) [2]::x".data :=
  ⟨by decide, by decide, by decide⟩

/-- C10 amended: with no `'F'` marker at the parameter phase no parameter
list is parsed, and composition with empty parameters appends no
parameter-list parentheses: the output is owner type, name and optional
`" const"` only (parentheses may still occur inside those parts). -/
theorem c10_no_param_list :
    (∀ (fuel : Nat) (st : SS), peek st ≠ 'F' →
      phaseParams fuel st = some ([], st)) ∧
      (∀ (ty nm : List Char) (konst : Bool), assemble ty nm [] konst =
        (if ty = [] then [] else ty ++ "::".data) ++ nm ++
          (if konst then " const".data else [])) := by
  constructor
  · intro fuel st h
    unfold phaseParams
    rw [if_neg h]
  · intro ty nm konst
    unfold assemble
    rw [if_pos rfl]
    simp

theorem c10_no_param_list_witness :
    phaseParams 3 ⟨"x".data, 1, false⟩ = some ([], ⟨"x".data, 1, false⟩) :=
  c10_no_param_list.1 3 ⟨"x".data, 1, false⟩ (by decide)

end Demangler
